import Mathlib

/-!
Shallow embedding of the JSPolySynth voice engine
(src/unnamed/part_000 = soundOscillator.js, src/unnamed/part_002 = the current
synthesizer.js; the older variant kept in src/unnamed/part_001 is modelled
separately where a claim refers to it).

Modelling conventions:
* JS numbers are idealized as `ℚ` for clock times, gains and detunes; the
  MIDI-note frequency map (which uses `Math.pow`) is idealized over `ℝ`.
* A Web Audio `AudioParam` is modelled by the list of automation calls issued
  on it (`AutoEvent`), in call order.  A synchronous `.value` read depends on
  the external audio clock, which is outside this core, so operations that
  read `.value` take the read results as inputs (an oracle
  `val : Nat → ParamKind → ℚ` indexed by the owning SoundOscillator's id);
  within one synchronous call the oracle is constant, matching the engine's
  single-threaded model.  `audioContext.currentTime` is the input `now`.
* `setTimeout`/`clearTimeout` are modelled by the list of pending `Timer`s of
  the host together with the fresh-handle counter `nextTimerId`;
  `timeOutList` is the synthesizer's own bookkeeping array of handles
  (synthesizer.js line 64).  Firing a timer removes it from `pending`.
* The JS note lists are arrays indexed by MIDI note.  An unassigned slot and
  an assigned empty array behave identically in every modelled operation
  (pushing onto an empty array yields the same array as assigning a
  one-element array, every guard tests `list && list.length > 0` or `note in
  list`, and the release callback leaves the state unchanged either way:
  it either skips the body or throws before its first mutation), so both
  are modelled as `[]`.
* `osc.stop(0)` on every member oscillator of a SoundOscillator is recorded
  by appending that SoundOscillator's id to `stopped`.
-/

set_option maxRecDepth 8000

namespace PolySynth

/-- Automation calls issued on one Web Audio `AudioParam`, in the order the
source issues them. -/
inductive AutoEvent where
  | setValueAtTime (v t : ℚ)
  | linearRampToValueAtTime (v t : ℚ)
  | exponentialRampToValueAtTime (v t : ℚ)
  | cancelScheduledValues (t : ℚ)
deriving DecidableEq, Repr

/-- The four automatable parameters owned by a SoundOscillator:
`gainNode.gain` and the three `envelopeProgress` constant-source offsets
(soundOscillator.js part_000 lines 28-40). -/
inductive ParamKind where
  | gain
  | attackP
  | decayP
  | releaseP
deriving DecidableEq, Repr

/-- One SoundOscillator object (soundOscillator.js part_000 lines 9-41):
member oscillators are represented by their `detune.value`s (all share the
same frequency and type, which no claim depends on beyond the frequency map,
modelled separately by `noteFreq`); the four automatable params are
represented by their automation schedules.  `id` is the JS object identity
(creation order), `note` the MIDI note whose frequency `noteOn` passed to
`createSOsc`. -/
structure SOsc where
  id : Nat
  note : Nat
  oscDetunes : List ℚ
  gainEvents : List AutoEvent
  attackEvents : List AutoEvent
  decayEvents : List AutoEvent
  releaseEvents : List AutoEvent
deriving DecidableEq, Repr

/-- A pending host timeout: handle, delay in ms, and the `note` captured by
the cleanup callback (synthesizer.js part_002 lines 207-218). -/
structure Timer where
  id : Nat
  delay : ℚ
  note : Nat
deriving DecidableEq, Repr

/-- Read of a JS array slot `l[n]`; an unassigned index reads as the empty
list (see the file comment on undefined vs empty). -/
def getNote : List (List SOsc) → Nat → List SOsc
  | [], _ => []
  | a :: _, 0 => a
  | _ :: t, n + 1 => getNote t n

/-- JS array slot assignment `l[n] = xs`: extends the array with empty slots
as needed (assigning past the end grows the array). -/
def setNote : List (List SOsc) → Nat → List SOsc → List (List SOsc)
  | [], 0, xs => [xs]
  | [], n + 1, xs => [] :: setNote [] n xs
  | _ :: t, 0, xs => xs :: t
  | a :: t, n + 1, xs => a :: setNote t n xs

/-- The detune-assignment loop of `SoundOscillator.setType`
(soundOscillator.js part_000 lines 47-61), translated structurally: the JS
`for (let i = 0; i < voices; i++)` runs exactly `voices - i` more iterations
from counter value `i`, so we recurse on that count.  Oscillator 0 keeps the
default detune 0; for `i > 0`, odd `i` gets `detune * evens` and even `i`
gets `detune * (-evens)` followed by `evens++`. -/
def setTypeLoop (detune : ℚ) : Nat → Nat → Nat → List ℚ
  | 0, _, _ => []
  | remaining + 1, i, evens =>
      (if i = 0 then (0 : ℚ)
       else if i % 2 = 1 then detune * evens
       else detune * (-(evens : ℚ)))
        :: setTypeLoop detune remaining (i + 1)
            (if 0 < i ∧ i % 2 ≠ 1 then evens + 1 else evens)

/-- Detunes produced by `setType("synth")` for a freshly constructed
SoundOscillator: the loop starts at `i = 0` with `evens = 1`. -/
def setTypeDetunes (voices : Nat) (detune : ℚ) : List ℚ :=
  setTypeLoop detune voices 0 1

/-- `createSOsc` (soundOscillator.js part_000 lines 103-124): builds a
SoundOscillator with `voices` detuned member oscillators, sets oscillator
type/frequency and filter parameters (not modelled: no claim depends on
them beyond the frequency map `noteFreq`), sets `gainNode.gain.value` to
0.001 (a direct value write, not an automation event, so the schedules
start empty and the first `.value` read is 0.001), connects and starts the
oscillators. -/
def createSOsc (voices : Nat) (detune : ℚ) (id note : Nat) : SOsc :=
  { id := id
    note := note
    oscDetunes := setTypeDetunes voices detune
    gainEvents := []
    attackEvents := []
    decayEvents := []
    releaseEvents := [] }

/-- The nested `noteFreq` of `Synthesizer.noteOn` (synthesizer.js part_002
lines 106-108): `440 * Math.pow(2, (note - 69) / 12)`, idealized over ℝ. -/
noncomputable def noteFreq (note : Nat) : ℝ :=
  440 * (2 : ℝ) ^ (((note : ℝ) - 69) / 12)

/-- Frequency carried by a SoundOscillator's member oscillators: `noteOn`
passes `noteFreq note` to `createSOsc`, which assigns it to every member
oscillator's `frequency.value` (part_000 line 110). -/
noncomputable def SOsc.frequency (v : SOsc) : ℝ :=
  noteFreq v.note

/-- `Synthesizer.cancelAndHold(oscParam, now=true)` (part_002 lines
221-229): reads `oscParam.value` (the oracle-supplied `oldValue`), cancels
scheduled values when `nowFlag` is set, and re-asserts the old value via a
linear ramp at time 0 (resp. `currentTime` when `nowFlag` is false). -/
def cancelAndHold (ev : List AutoEvent) (oldValue now : ℚ) (nowFlag : Bool) :
    List AutoEvent :=
  (if nowFlag then ev ++ [AutoEvent.cancelScheduledValues 0] else ev) ++
    [AutoEvent.linearRampToValueAtTime oldValue (if nowFlag then 0 else now)]

/-- `Synthesizer.decay(oscParam, attack, decay)` (part_002 lines 158-161):
cancel-and-hold without cancelling, then a linear ramp to the sustain level
`geS` ending `(decay + attack)` ms from now. -/
def decay (ev : List AutoEvent) (gv now attackT decayT geS : ℚ) :
    List AutoEvent :=
  cancelAndHold ev gv now false ++
    [AutoEvent.linearRampToValueAtTime geS (now + (decayT + attackT) / 1000)]

/-- `Synthesizer.attack(oscParam, attack)` (part_002 lines 150-156):
cancel-and-hold, exponential ramp to 0.993 ending `attack` ms from now,
then schedule the decay stage. -/
def attack (ev : List AutoEvent) (gv now attackT geD geS : ℚ) :
    List AutoEvent :=
  decay
    (cancelAndHold ev gv now true ++
      [AutoEvent.exponentialRampToValueAtTime (993 / 1000) (now + attackT / 1000)])
    gv now attackT geD geS

/-- The Synthesizer state (part_002 constructor, lines 29-94), restricted to
the fields the claims are about.  `pending`, `stopped`, `nextId` and
`nextTimerId` model the host environment (armed timeouts, stopped
oscillators, object and timeout-handle allocation). -/
structure SynthState where
  noteOnList : List (List SOsc)
  noteOffList : List (List SOsc)
  timeOutList : List Nat
  pending : List Timer
  stopped : List Nat
  nextId : Nat
  nextTimerId : Nat
  geA : ℚ
  geD : ℚ
  geS : ℚ
  geR : ℚ
  voices : Nat
  detune : ℚ
deriving DecidableEq, Repr

/-- A freshly constructed Synthesizer (part_002 lines 50-85): empty note
lists and timeout list, default envelope parameters `geA = 96`, `geD = 224`,
`geS = 0.25`, `geR = 1080`, one voice, no detune. -/
def initState : SynthState :=
  { noteOnList := []
    noteOffList := []
    timeOutList := []
    pending := []
    stopped := []
    nextId := 0
    nextTimerId := 0
    geA := 96
    geD := 224
    geS := 1 / 4
    geR := 1080
    voices := 1
    detune := 0 }

/-- `Synthesizer.checkNoteOn` (part_002 lines 387-389):
`noteOnList[note] && noteOnList[note].length > 0`. -/
def checkNoteOn (s : SynthState) (note : Nat) : Bool :=
  !(getNote s.noteOnList note).isEmpty

/-- `Synthesizer.checkNoteOff` (part_002 lines 396-398). -/
def checkNoteOff (s : SynthState) (note : Nat) : Bool :=
  !(getNote s.noteOffList note).isEmpty

/-- `Synthesizer.getOnNoteIndexes` (part_002 lines 445-453): the indexes of
the notes currently holding at least one voice (`for i in` enumerates the
assigned indexes of the array in ascending order; assigned-but-empty slots
are filtered out by `checkNoteOn`, so enumerating all indexes below the
array length is equivalent). -/
def getOnNoteIndexes (s : SynthState) : List Nat :=
  (List.range s.noteOnList.length).filter (fun i => checkNoteOn s i)

/-- `Synthesizer.getOffNoteIndexes` (part_002 lines 459-467). -/
def getOffNoteIndexes (s : SynthState) : List Nat :=
  (List.range s.noteOffList.length).filter (fun i => checkNoteOff s i)

/-- `Synthesizer.getNoteStatInfo(note)` (part_002 lines 405-409): returns
`(getOnNoteIndexes().length, getOffNoteIndexes().length)` — the counts of
active note indexes; the `note` argument is not used by the body. -/
def getNoteStatInfo (note : Nat) (s : SynthState) : Nat × Nat :=
  ((getOnNoteIndexes s).length, (getOffNoteIndexes s).length)

/-- `Synthesizer.getNoteInfo(note)` of the older variant (part_001 lines
327-331): per-note counts `(noteOnList[note].length, noteOffList[note].length)`
with 0 for missing/empty slots. -/
def getNoteInfoV1 (note : Nat) (s : SynthState) : Nat × Nat :=
  ((getNote s.noteOnList note).length, (getNote s.noteOffList note).length)

/-- `Synthesizer.noteOn(note)` (part_002 lines 105-148): creates a
SoundOscillator from the current parameters at `noteFreq note`, pushes it
onto `noteOnList[note]` (assigning a fresh one-element array when the slot is
unassigned — same resulting slot), then schedules the attack/decay envelope
on its gain and the attack/decay progress ramps.  All `.value` reads in this
call are of the freshly created object: `gainNode.gain.value` is 0.001 (set
by `createSOsc`; the ramp of line 128 targets time 0 at that same value) and
the progress constant-sources hold their default offset 1. -/
def noteOn (note : Nat) (now : ℚ) (s : SynthState) : SynthState :=
  let v0 := createSOsc s.voices s.detune s.nextId note
  -- lines 126-128: cancelScheduledValues(0); exponentialRampToValueAtTime(0.001, 0)
  let g0 : List AutoEvent :=
    [AutoEvent.cancelScheduledValues 0,
     AutoEvent.exponentialRampToValueAtTime (1 / 1000) 0]
  -- line 134: cancelAndHold(gain); line 137: attack(gain, geA)
  let g1 := attack (cancelAndHold g0 (1 / 1000) now true) (1 / 1000) now s.geA s.geD s.geS
  -- lines 139, 142: cancelAndHold(attackProgress); linearRamp to 0 at now + geA/1000
  let aE := cancelAndHold [] 1 now true ++
    [AutoEvent.linearRampToValueAtTime 0 (now + s.geA / 1000)]
  -- lines 140, 143-144: cancelAndHold(decayProgress); setValue 1; linearRamp to 0
  let dE := cancelAndHold [] 1 now true ++
    [AutoEvent.setValueAtTime 1 (now + s.geA / 1000),
     AutoEvent.linearRampToValueAtTime 0 (now + (s.geA + s.geD) / 1000)]
  let v := { v0 with gainEvents := g1, attackEvents := aE, decayEvents := dE }
  { s with
      noteOnList := setNote s.noteOnList note (getNote s.noteOnList note ++ [v])
      nextId := s.nextId + 1 }

/-- `Synthesizer.release(note, releaseTime)` (part_002 lines 188-219): acts
on `noteOffList[note][length - 1]`, the most recently pushed releasing voice
of `note`: cancel-and-hold its gain (reading its current value via the
oracle), exponential ramp to 0.0001 ending `releaseTime` ms from now,
likewise re-arm its release-progress ramp, then arm a `setTimeout` with
delay `releaseTime` whose callback stops `noteOffList[note][0]` and drops
the first entries of `noteOffList[note]` and `timeOutList` (see
`fireTimer`), pushing the handle onto `timeOutList`.  Both source call sites
guarantee the slot is non-empty; the empty case is unreachable. -/
def release (note : Nat) (releaseTime now : ℚ) (val : Nat → ParamKind → ℚ)
    (s : SynthState) : SynthState :=
  match (getNote s.noteOffList note).getLast? with
  | none => s
  | some v =>
      { s with
          noteOffList := setNote s.noteOffList note
            ((getNote s.noteOffList note).dropLast ++
              [{ v with
                  gainEvents := cancelAndHold v.gainEvents (val v.id ParamKind.gain) now true ++
                    [AutoEvent.exponentialRampToValueAtTime (1 / 10000) (now + releaseTime / 1000)]
                  releaseEvents := cancelAndHold v.releaseEvents (val v.id ParamKind.releaseP) now true ++
                    [AutoEvent.linearRampToValueAtTime 0 (now + releaseTime / 1000)] }])
          timeOutList := s.timeOutList ++ [s.nextTimerId]
          pending := s.pending ++ [⟨s.nextTimerId, releaseTime, note⟩]
          nextTimerId := s.nextTimerId + 1 }

/-- `Synthesizer.noteOff(note)` (part_002 lines 170-186): when
`checkNoteOn(note)`, pops the top of `noteOnList[note]`, pushes it onto
`noteOffList[note]`, then calls `release(note, geR)`.  The release call
reads the moved voice's gain and release-progress values (`gval`, `rval`).
Otherwise it does nothing. -/
def noteOff (note : Nat) (now gval rval : ℚ) (s : SynthState) : SynthState :=
  if checkNoteOn s note then
    match (getNote s.noteOnList note).getLast? with
    | none => s
    | some v =>
        release note s.geR now
          (fun _ k =>
            match k with
            | ParamKind.gain => gval
            | ParamKind.releaseP => rval
            | _ => 0)
          { s with
              noteOnList := setNote s.noteOnList note (getNote s.noteOnList note).dropLast
              noteOffList := setNote s.noteOffList note (getNote s.noteOffList note ++ [v]) }
  else s

/-- Firing of the pending timeout with handle `tid`, armed by `release` (the
callback of part_002 lines 207-218): a timeout fires only while still
pending, and the host removes it from the pending set as it fires.  The
callback: when `noteOffList[note]` is non-empty it stops all oscillators of
`noteOffList[note][0]`, drops it from the slot, and drops the first entry of
`timeOutList`.  When the slot is missing the body is skipped; when it is an
assigned empty array the body throws on `offList[note][0].oscillators`
before any mutation — either way the state is unchanged. -/
def fireTimer (tid : Nat) (s : SynthState) : SynthState :=
  match s.pending.find? (fun t => t.id == tid) with
  | none => s
  | some t =>
      match getNote s.noteOffList t.note with
      | [] => { s with pending := s.pending.filter (fun u => !(u.id == tid)) }
      | v :: rest =>
          { s with
              pending := s.pending.filter (fun u => !(u.id == tid))
              stopped := s.stopped ++ [v.id]
              noteOffList := setNote s.noteOffList t.note rest
              timeOutList := s.timeOutList.drop 1 }

/-- `Synthesizer.panic()` (part_002 lines 234-260): stops every oscillator
of every SoundOscillator held in either list (the loops run over all
indexes below each array's length, which covers every populated slot; the
`checkNoteOn`/`checkNoteOff` guards only skip slots that contribute no
voices), calls `clearTimeout` on every handle in `timeOutList`, and empties
`noteOnList`, `noteOffList` and `timeOutList`. -/
def panic (s : SynthState) : SynthState :=
  { s with
      stopped := s.stopped ++ (s.noteOnList.flatten.map SOsc.id) ++
        (s.noteOffList.flatten.map SOsc.id)
      pending := s.pending.filter (fun t => !(s.timeOutList.contains t.id))
      noteOnList := []
      noteOffList := []
      timeOutList := [] }

/-- Per-voice body of the `geA` setter's retarget loop (part_002 lines
294-310): reads the voice's attack progress `p` and decay progress `dp`,
cancel-and-holds both progress trackers, re-arms them around
`modValue = value * p`, cancel-and-holds the gain, and re-runs `attack` with
`modValue` when `modValue > 0` (else `decay` with decay time `geD * dp`). -/
def retargetAttack (value geD geS now : ℚ) (val : Nat → ParamKind → ℚ)
    (v : SOsc) : SOsc :=
  let p := val v.id ParamKind.attackP
  let dp := val v.id ParamKind.decayP
  let modValue := value * p
  let g0 := cancelAndHold v.gainEvents (val v.id ParamKind.gain) now true
  { v with
      attackEvents := cancelAndHold v.attackEvents p now true ++
        [AutoEvent.linearRampToValueAtTime 0 (now + modValue / 1000)]
      decayEvents := cancelAndHold v.decayEvents dp now true ++
        [AutoEvent.setValueAtTime 1 (now + modValue / 1000),
         AutoEvent.linearRampToValueAtTime 0 (now + geD / 1000)]
      gainEvents :=
        if 0 < modValue then
          attack g0 (val v.id ParamKind.gain) now modValue geD geS
        else
          decay g0 (val v.id ParamKind.gain) now modValue (geD * dp) geS }

/-- `set geA(value)` (part_002 lines 290-311): stores the value, then for
every note in `getOnNoteIndexes` applies the retarget body to each of its
held voices.  Iterating `noteOnList.map` is equivalent: the skipped notes
hold no voices, so mapping their empty slots changes nothing. -/
def setGeA (value now : ℚ) (val : Nat → ParamKind → ℚ) (s : SynthState) :
    SynthState :=
  { s with
      geA := value
      noteOnList := s.noteOnList.map (List.map (retargetAttack value s.geD s.geS now val)) }

/-- Per-voice body of the `geD` setter's retarget loop (part_002 lines
329-344): with `aValue = geA * aProgress` and `modValue = value * dProgress`,
cancel-and-holds the decay progress, re-asserts 1 at `now + aValue/1000`
only while the attack stage is unfinished, ramps it to 0 over `modValue`,
and re-issues `decay(gain, aValue, modValue)`. -/
def retargetDecay (value geA geS now : ℚ) (val : Nat → ParamKind → ℚ)
    (v : SOsc) : SOsc :=
  let dp := val v.id ParamKind.decayP
  let ap := val v.id ParamKind.attackP
  let aValue := geA * ap
  let modValue := value * dp
  let dE0 := cancelAndHold v.decayEvents dp now true
  let dE1 := if 0 < ap then dE0 ++ [AutoEvent.setValueAtTime 1 (now + aValue / 1000)] else dE0
  { v with
      decayEvents := dE1 ++ [AutoEvent.linearRampToValueAtTime 0 (now + modValue / 1000)]
      gainEvents := decay v.gainEvents (val v.id ParamKind.gain) now aValue modValue geS }

/-- `set geD(value)` (part_002 lines 325-355). -/
def setGeD (value now : ℚ) (val : Nat → ParamKind → ℚ) (s : SynthState) :
    SynthState :=
  { s with
      geD := value
      noteOnList := s.noteOnList.map (List.map (retargetDecay value s.geA s.geS now val)) }

/-- Per-voice body of the `geS` setter's loop (part_002 lines 365-374):
cancel-and-holds the gain, then re-decays toward the new sustain value when
the attack stage has finished (`aProgress = 0`), else re-runs the attack. -/
def retargetSustain (geA geD value now : ℚ) (val : Nat → ParamKind → ℚ)
    (v : SOsc) : SOsc :=
  let dp := val v.id ParamKind.decayP
  let ap := val v.id ParamKind.attackP
  let g0 := cancelAndHold v.gainEvents (val v.id ParamKind.gain) now true
  { v with
      gainEvents :=
        if ap = 0 then decay g0 (val v.id ParamKind.gain) now (geA * ap) (geD * dp) value
        else attack g0 (val v.id ParamKind.gain) now (geA * ap) geD value }

/-- `set geS(value)` (part_002 lines 361-376). -/
def setGeS (value now : ℚ) (val : Nat → ParamKind → ℚ) (s : SynthState) :
    SynthState :=
  { s with
      geS := value
      noteOnList := s.noteOnList.map (List.map (retargetSustain s.geA s.geD value now val)) }

/-- `set geR(newRelease)` (part_002 lines 270-283): stores the value, calls
`clearTimeout` on every handle in `timeOutList` and empties it, then for
every note in `getOffNoteIndexes` and every index `i` of that note's
releasing slot, reads `noteOffList[note][i].envelopeProgress.release.value`
(the voice objects keep their ids while `release` rewrites their schedules,
so reading the progress of the voice initially at index `i` is the live
read) and calls `release(note, newRelease * progress)` — which always acts
on the top of the stack. -/
def setGeR (newRelease now : ℚ) (val : Nat → ParamKind → ℚ) (s : SynthState) :
    SynthState :=
  let s1 := { s with
    geR := newRelease
    pending := s.pending.filter (fun t => !(s.timeOutList.contains t.id))
    timeOutList := [] }
  (getOffNoteIndexes s1).foldl
    (fun acc note =>
      (getNote s1.noteOffList note).foldl
        (fun acc2 v =>
          release note (newRelease * val v.id ParamKind.releaseP) now val acc2)
        acc)
    s1

/-- The engine's externally triggerable operations: the public note API,
the envelope-parameter setters (each carrying the clock time and the
`.value`-read oracle of that moment), the firing of an armed host timeout,
and panic. -/
inductive Event where
  | noteOn (note : Nat) (now : ℚ)
  | noteOff (note : Nat) (now gval rval : ℚ)
  | fire (tid : Nat)
  | setA (value now : ℚ) (val : Nat → ParamKind → ℚ)
  | setD (value now : ℚ) (val : Nat → ParamKind → ℚ)
  | setS (value now : ℚ) (val : Nat → ParamKind → ℚ)
  | setR (value now : ℚ) (val : Nat → ParamKind → ℚ)
  | panicEv

/-- Interpretation of one event. -/
def applyEvent (e : Event) (s : SynthState) : SynthState :=
  match e with
  | Event.noteOn n now => noteOn n now s
  | Event.noteOff n now gv rv => noteOff n now gv rv s
  | Event.fire tid => fireTimer tid s
  | Event.setA v now val => setGeA v now val s
  | Event.setD v now val => setGeD v now val s
  | Event.setS v now val => setGeS v now val s
  | Event.setR v now val => setGeR v now val s
  | Event.panicEv => panic s

/-- State reached from a freshly constructed Synthesizer by a sequence of
events. -/
def run (evs : List Event) : SynthState :=
  evs.foldl (fun s e => applyEvent e s) initState

/-- `Event.isNote e` holds for the plain `noteOn`/`noteOff` calls. -/
def Event.isNote : Event → Bool
  | Event.noteOn _ _ => true
  | Event.noteOff _ _ _ _ => true
  | _ => false

/-- The multiset of voice identities registered in one note-list. -/
def ids (l : List (List SOsc)) : Multiset Nat :=
  ((l.flatten.map SOsc.id : List Nat) : Multiset Nat)

/-- All voice identities currently registered in either stack. -/
def idBag (s : SynthState) : Multiset Nat :=
  ids s.noteOnList + ids s.noteOffList

/-- Well-formedness of the voice registry: no voice object is registered
twice (across both stacks and within any stack), registered identities are
older than the allocation counter, and each held stack is ordered by
creation (the JS stacks only ever push freshly created voices on top). -/
def goodState (s : SynthState) : Prop :=
  (idBag s).Nodup ∧ (∀ i ∈ idBag s, i < s.nextId) ∧
    ∀ n, ((getNote s.noteOnList n).map SOsc.id).Pairwise (· < ·)

/-- The synthesizer's `timeOutList` lists exactly the ids of the timers that
are still pending with the host, in arming order, and every pending id is
older than the handle counter.  This holds along plain `noteOn`/`noteOff`
sequences, where both lists only grow in lockstep. -/
def timerSync (s : SynthState) : Prop :=
  s.timeOutList = s.pending.map Timer.id ∧
    ∀ t ∈ s.pending, t.id < s.nextTimerId

/-- Closed form of the detune the `setType` loop assigns to oscillator `i`:
0 for oscillator 0, `+k·detune` for oscillator `2k-1`, `−k·detune` for
oscillator `2k`. -/
def oscDetuneVal (d : ℚ) (i : Nat) : ℚ :=
  if i = 0 then 0
  else if i % 2 = 1 then d * (((i + 1) / 2 : Nat) : ℚ)
  else -(d * ((i / 2 : Nat) : ℚ))

/-- Oracle of `.value` reads for the C1 scenario: the older releasing voice
(id 0) reads release progress 1/2, the newer (id 1) reads 9/10; gain reads
are 3/10. -/
def oracleC1 : Nat → ParamKind → ℚ := fun id k =>
  match k with
  | ParamKind.releaseP => if id = 0 then 1 / 2 else 9 / 10
  | _ => 3 / 10

/-- Two voices releasing on note 60: `noteOn 60; noteOff 60` twice. -/
def stateC1 : SynthState :=
  run [Event.noteOn 60 0, Event.noteOff 60 0 (1 / 2) 1,
       Event.noteOn 60 1, Event.noteOff 60 1 (1 / 2) 1]

/-- Oracle for the C8 scenario: first retarget reads release progress 9/10
for the older voice (id 0) and 1/10 for the newer (id 1). -/
def oracleC8 : Nat → ParamKind → ℚ := fun id k =>
  match k with
  | ParamKind.releaseP => if id = 0 then 9 / 10 else 1 / 10
  | _ => 1 / 2

/-- Two voices releasing on note 60, retargeted with mismatched delays
(timer 2: 2000·(9/10) = 1800 ms, timer 3: 2000·(1/10) = 200 ms), after
which the shorter, later-armed timer 3 fires first. -/
def stateC8 : SynthState :=
  fireTimer 3
    (setGeR 2000 2 oracleC8
      (run [Event.noteOn 60 0, Event.noteOff 60 0 (1 / 2) 1,
            Event.noteOn 60 1, Event.noteOff 60 1 (1 / 2) 1]))

/-- Two voices held on note 60. -/
def stateC9 : SynthState := run [Event.noteOn 60 0, Event.noteOn 60 0]

/-! ### Registry bookkeeping lemmas -/

theorem getNote_nil (n : Nat) : getNote [] n = [] := by
  cases n <;> rfl

theorem getNote_setNote_self (l : List (List SOsc)) (n : Nat) (xs : List SOsc) :
    getNote (setNote l n xs) n = xs := by
  induction l generalizing n with
  | nil =>
      induction n with
      | zero => rfl
      | succ k ih => simpa [setNote, getNote] using ih
  | cons a t ih =>
      cases n with
      | zero => rfl
      | succ k => simpa [setNote, getNote] using ih k

theorem getNote_setNote_ne (l : List (List SOsc)) {m n : Nat} (h : m ≠ n)
    (xs : List SOsc) : getNote (setNote l n xs) m = getNote l m := by
  induction l generalizing m n with
  | nil =>
      induction n generalizing m with
      | zero =>
          cases m with
          | zero => exact absurd rfl h
          | succ j => simp [setNote, getNote, getNote_nil]
      | succ k ih =>
          cases m with
          | zero => rfl
          | succ j =>
              have hjk : j ≠ k := by omega
              simpa [setNote, getNote, getNote_nil] using ih hjk
  | cons a t ih =>
      cases n with
      | zero =>
          cases m with
          | zero => exact absurd rfl h
          | succ j => rfl
      | succ k =>
          cases m with
          | zero => rfl
          | succ j =>
              have hjk : j ≠ k := by omega
              simpa [setNote, getNote] using ih hjk

theorem getNote_map (f : SOsc → SOsc) (l : List (List SOsc)) (n : Nat) :
    getNote (l.map (List.map f)) n = (getNote l n).map f := by
  induction l generalizing n with
  | nil => simp [getNote_nil]
  | cons a t ih =>
      cases n with
      | zero => rfl
      | succ k => simpa [getNote] using ih k

theorem mem_getNote_mem_flatten {v : SOsc} {l : List (List SOsc)} {n : Nat}
    (h : v ∈ getNote l n) : v ∈ l.flatten := by
  induction l generalizing n with
  | nil => simp [getNote_nil] at h
  | cons a t ih =>
      cases n with
      | zero => exact List.mem_flatten.mpr ⟨a, List.mem_cons_self _ _, h⟩
      | succ k => simpa using Or.inr (ih h)


theorem flatten_setNote_nil (n : Nat) :
    (setNote ([] : List (List SOsc)) n []).flatten = [] := by
  induction n with
  | zero => rfl
  | succ k ih => simpa [setNote] using ih

theorem flattenBag_setNote (l : List (List SOsc)) (n : Nat) (xs : List SOsc) :
    ((setNote l n xs).flatten : Multiset SOsc)
      = (xs : Multiset SOsc) + ((setNote l n []).flatten : Multiset SOsc) := by
  induction l generalizing n with
  | nil =>
      induction n with
      | zero => simp [setNote, flatten_setNote_nil]
      | succ k ih => simpa [setNote] using ih
  | cons a t ih =>
      cases n with
      | zero => simp [setNote]
      | succ k =>
          simp only [setNote, List.flatten_cons, ← Multiset.coe_add, ih k]
          abel

theorem flattenBag_getNote (l : List (List SOsc)) (n : Nat) :
    (l.flatten : Multiset SOsc)
      = (getNote l n : Multiset SOsc) + ((setNote l n []).flatten : Multiset SOsc) := by
  induction l generalizing n with
  | nil => simp [getNote_nil, setNote, flatten_setNote_nil]
  | cons a t ih =>
      cases n with
      | zero => simp [setNote, getNote]
      | succ k =>
          simp only [setNote, getNote, List.flatten_cons, ← Multiset.coe_add, ih k]
          abel

theorem ids_setNote (l : List (List SOsc)) (n : Nat) (xs : List SOsc) :
    ids (setNote l n xs)
      = ((xs.map SOsc.id : List Nat) : Multiset Nat) + ids (setNote l n []) := by
  have h := congrArg (Multiset.map SOsc.id) (flattenBag_setNote l n xs)
  simpa [ids, Multiset.map_coe] using h

theorem ids_getNote (l : List (List SOsc)) (n : Nat) :
    ids l = (((getNote l n).map SOsc.id : List Nat) : Multiset Nat)
      + ids (setNote l n []) := by
  have h := congrArg (Multiset.map SOsc.id) (flattenBag_getNote l n)
  simpa [ids, Multiset.map_coe] using h

theorem ids_setNote_congr (l : List (List SOsc)) (n : Nat) {xs : List SOsc}
    (h : xs.map SOsc.id = (getNote l n).map SOsc.id) :
    ids (setNote l n xs) = ids l := by
  rw [ids_setNote, h, ← ids_getNote]

theorem mem_idBag_of_mem_held {s : SynthState} {n : Nat} {v : SOsc}
    (h : v ∈ getNote s.noteOnList n) : v.id ∈ idBag s := by
  have : v.id ∈ ids s.noteOnList := by
    have hv : v ∈ s.noteOnList.flatten := mem_getNote_mem_flatten h
    simpa [ids] using List.mem_map_of_mem SOsc.id hv
  exact Multiset.mem_add.mpr (Or.inl this)

/-! ### Effect of each operation on the registered identities -/

theorem noteOn_noteOffList (n : Nat) (now : ℚ) (s : SynthState) :
    (noteOn n now s).noteOffList = s.noteOffList := rfl

theorem noteOn_nextId (n : Nat) (now : ℚ) (s : SynthState) :
    (noteOn n now s).nextId = s.nextId + 1 := rfl

theorem noteOn_held (n : Nat) (now : ℚ) (s : SynthState) :
    ∃ v : SOsc, v.id = s.nextId ∧ v.note = n ∧
      getNote (noteOn n now s).noteOnList n = getNote s.noteOnList n ++ [v] := by
  unfold noteOn
  exact ⟨_, rfl, rfl, getNote_setNote_self _ _ _⟩

theorem idBag_noteOn (n : Nat) (now : ℚ) (s : SynthState) :
    idBag (noteOn n now s) = s.nextId ::ₘ idBag s := by
  simp only [idBag, noteOn, createSOsc]
  rw [ids_setNote, ids_getNote s.noteOnList n]
  simp only [List.map_append, List.map_cons, List.map_nil]
  rw [← Multiset.singleton_add]
  have hco : (((getNote s.noteOnList n).map SOsc.id ++ [s.nextId] : List Nat) : Multiset Nat)
      = (((getNote s.noteOnList n).map SOsc.id : List Nat) : Multiset Nat) + ({s.nextId} : Multiset Nat) := by
    rw [← Multiset.coe_add]
    rfl
  rw [hco]
  abel

theorem release_noteOnList (note : Nat) (rt now : ℚ) (val : Nat → ParamKind → ℚ)
    (s : SynthState) : (release note rt now val s).noteOnList = s.noteOnList := by
  unfold release
  cases h : (getNote s.noteOffList note).getLast? <;> rfl

theorem release_nextId (note : Nat) (rt now : ℚ) (val : Nat → ParamKind → ℚ)
    (s : SynthState) : (release note rt now val s).nextId = s.nextId := by
  unfold release
  cases h : (getNote s.noteOffList note).getLast? <;> rfl

/-- `release` rewrites the schedules of the top releasing voice in place:
the registered identities do not change. -/
theorem idBag_release (note : Nat) (rt now : ℚ) (val : Nat → ParamKind → ℚ)
    (s : SynthState) : idBag (release note rt now val s) = idBag s := by
  unfold release
  cases hlast : (getNote s.noteOffList note).getLast? with
  | none => rfl
  | some v =>
      have hdrop : (getNote s.noteOffList note).dropLast ++ [v]
          = getNote s.noteOffList note :=
        List.dropLast_append_getLast? v (by rw [hlast]; rfl)
      simp only [idBag]
      congr 1
      apply ids_setNote_congr
      conv_rhs => rw [← hdrop]
      simp

theorem idBag_noteOff (n : Nat) (now gval rval : ℚ) (s : SynthState) :
    idBag (noteOff n now gval rval s) = idBag s := by
  unfold noteOff
  by_cases hchk : checkNoteOn s n
  · rw [if_pos hchk]
    cases hlast : (getNote s.noteOnList n).getLast? with
    | none => rfl
    | some v =>
        have hdrop : (getNote s.noteOnList n).dropLast ++ [v] = getNote s.noteOnList n :=
          List.dropLast_append_getLast? v (by rw [hlast]; rfl)
        rw [idBag_release]
        simp only [idBag]
        rw [ids_setNote s.noteOnList n, ids_setNote s.noteOffList n,
          ids_getNote s.noteOnList n, ids_getNote s.noteOffList n]
        have hg : (((getNote s.noteOnList n).map SOsc.id : List Nat) : Multiset Nat)
            = (((getNote s.noteOnList n).dropLast.map SOsc.id : List Nat) : Multiset Nat)
              + ({v.id} : Multiset Nat) := by
          conv_lhs => rw [← hdrop]
          rw [List.map_append, ← Multiset.coe_add]
          rfl
        have hog : (((getNote s.noteOffList n ++ [v]).map SOsc.id : List Nat) : Multiset Nat)
            = (((getNote s.noteOffList n).map SOsc.id : List Nat) : Multiset Nat)
              + ({v.id} : Multiset Nat) := by
          rw [List.map_append, ← Multiset.coe_add]
          rfl
        rw [hg, hog]
        abel
  · rw [if_neg hchk]

theorem noteOff_nextId (n : Nat) (now gval rval : ℚ) (s : SynthState) :
    (noteOff n now gval rval s).nextId = s.nextId := by
  unfold noteOff
  by_cases hchk : checkNoteOn s n
  · rw [if_pos hchk]
    cases hlast : (getNote s.noteOnList n).getLast? with
    | none => rfl
    | some v => rw [release_nextId]
  · rw [if_neg hchk]

theorem fireTimer_noteOnList (tid : Nat) (s : SynthState) :
    (fireTimer tid s).noteOnList = s.noteOnList := by
  unfold fireTimer
  cases hf : s.pending.find? (fun t => t.id == tid) with
  | none => rfl
  | some t => cases h : getNote s.noteOffList t.note <;> simp [h]

theorem fireTimer_nextId (tid : Nat) (s : SynthState) :
    (fireTimer tid s).nextId = s.nextId := by
  unfold fireTimer
  cases hf : s.pending.find? (fun t => t.id == tid) with
  | none => rfl
  | some t => cases h : getNote s.noteOffList t.note <;> simp [h]

theorem idBag_fireTimer_le (tid : Nat) (s : SynthState) :
    idBag (fireTimer tid s) ≤ idBag s := by
  unfold fireTimer
  cases hf : s.pending.find? (fun t => t.id == tid) with
  | none => exact le_refl _
  | some t =>
      cases hslot : getNote s.noteOffList t.note with
      | nil =>
          simp only [hslot]
          exact le_refl (idBag s)
      | cons v rest =>
          simp only [hslot, idBag]
          refine add_le_add (le_refl (ids s.noteOnList)) ?_
          rw [ids_setNote s.noteOffList t.note, ids_getNote s.noteOffList t.note, hslot]
          refine add_le_add ?_ (le_refl (ids (setNote s.noteOffList t.note [])))
          rw [Multiset.coe_le]
          exact (List.sublist_cons_self v.id (rest.map SOsc.id)).subperm

theorem retargetAttack_id (value geD geS now : ℚ) (val : Nat → ParamKind → ℚ)
    (v : SOsc) : (retargetAttack value geD geS now val v).id = v.id := rfl

theorem retargetDecay_id (value geA geS now : ℚ) (val : Nat → ParamKind → ℚ)
    (v : SOsc) : (retargetDecay value geA geS now val v).id = v.id := rfl

theorem retargetSustain_id (geA geD value now : ℚ) (val : Nat → ParamKind → ℚ)
    (v : SOsc) : (retargetSustain geA geD value now val v).id = v.id := rfl

/-- Rewriting every voice in place with an identity-preserving function
leaves the registered identities unchanged. -/
theorem ids_map_of_id (f : SOsc → SOsc) (hf : ∀ v, (f v).id = v.id)
    (l : List (List SOsc)) : ids (l.map (List.map f)) = ids l := by
  simp only [ids, ← List.map_flatten, List.map_map]
  congr 1
  exact List.map_congr_left (fun v _ => hf v)

theorem idBag_setGeA (value now : ℚ) (val : Nat → ParamKind → ℚ)
    (s : SynthState) : idBag (setGeA value now val s) = idBag s := by
  simp only [idBag, setGeA]
  rw [ids_map_of_id _ (retargetAttack_id value s.geD s.geS now val)]

theorem idBag_setGeD (value now : ℚ) (val : Nat → ParamKind → ℚ)
    (s : SynthState) : idBag (setGeD value now val s) = idBag s := by
  simp only [idBag, setGeD]
  rw [ids_map_of_id _ (retargetDecay_id value s.geA s.geS now val)]

theorem idBag_setGeS (value now : ℚ) (val : Nat → ParamKind → ℚ)
    (s : SynthState) : idBag (setGeS value now val s) = idBag s := by
  simp only [idBag, setGeS]
  rw [ids_map_of_id _ (retargetSustain_id s.geA s.geD value now val)]

/-- A fold whose step preserves a projection preserves it overall. -/
theorem foldl_fix {α β : Type} (proj : SynthState → α)
    (f : SynthState → β → SynthState) (hf : ∀ s b, proj (f s b) = proj s) :
    ∀ (l : List β) (s : SynthState), proj (l.foldl f s) = proj s := by
  intro l
  induction l with
  | nil => intro s; rfl
  | cons b t ih =>
      intro s
      rw [List.foldl_cons, ih, hf]

theorem setGeR_noteOnList (value now : ℚ) (val : Nat → ParamKind → ℚ)
    (s : SynthState) : (setGeR value now val s).noteOnList = s.noteOnList := by
  unfold setGeR
  exact foldl_fix (fun st => st.noteOnList) _
    (fun st note => foldl_fix (fun st => st.noteOnList) _
      (fun st2 v => release_noteOnList _ _ _ _ _) _ st) _ _

theorem setGeR_nextId (value now : ℚ) (val : Nat → ParamKind → ℚ)
    (s : SynthState) : (setGeR value now val s).nextId = s.nextId := by
  unfold setGeR
  exact foldl_fix (fun st => st.nextId) _
    (fun st note => foldl_fix (fun st => st.nextId) _
      (fun st2 v => release_nextId _ _ _ _ _) _ st) _ _

theorem idBag_setGeR (value now : ℚ) (val : Nat → ParamKind → ℚ)
    (s : SynthState) : idBag (setGeR value now val s) = idBag s := by
  unfold setGeR
  exact foldl_fix idBag _
    (fun st note => foldl_fix idBag _
      (fun st2 v => idBag_release _ _ _ _ _) _ st) _ _

theorem idBag_panic (s : SynthState) : idBag (panic s) = 0 := rfl

/-! ### The registry invariant -/

theorem goodState_initState : goodState initState := by
  refine ⟨Multiset.nodup_zero, ?_, ?_⟩
  · intro i hi
    exact absurd hi (Multiset.not_mem_zero i)
  · intro n
    rw [show getNote initState.noteOnList n = [] from getNote_nil n]
    exact List.Pairwise.nil

theorem goodState_noteOn (n : Nat) (now : ℚ) {s : SynthState}
    (h : goodState s) : goodState (noteOn n now s) := by
  obtain ⟨hnd, hbd, hpw⟩ := h
  refine ⟨?_, ?_, ?_⟩
  · rw [idBag_noteOn]
    exact Multiset.nodup_cons.mpr ⟨fun hm => lt_irrefl _ (hbd _ hm), hnd⟩
  · intro i hi
    rw [idBag_noteOn] at hi
    rw [noteOn_nextId]
    rcases Multiset.mem_cons.mp hi with h1 | h1
    · omega
    · exact lt_trans (hbd i h1) (Nat.lt_succ_self _)
  · intro m
    by_cases hm : m = n
    · subst hm
      obtain ⟨v, hid, _, hslot⟩ := noteOn_held m now s
      rw [hslot, List.map_append, List.pairwise_append]
      refine ⟨hpw m, List.pairwise_singleton _ _, ?_⟩
      intro a ha b hb
      have hb' : b = s.nextId := by
        simpa [hid] using hb
      obtain ⟨w, hw, hwid⟩ := List.mem_map.mp ha
      rw [← hwid, hb']
      exact hbd _ (mem_idBag_of_mem_held hw)
    · have hsame : getNote (noteOn n now s).noteOnList m = getNote s.noteOnList m := by
        simp only [noteOn]
        exact getNote_setNote_ne _ hm _
      rw [hsame]
      exact hpw m

theorem noteOff_noteOnList (n : Nat) (now gval rval : ℚ) (s : SynthState) :
    (noteOff n now gval rval s).noteOnList = s.noteOnList ∨
      (noteOff n now gval rval s).noteOnList
        = setNote s.noteOnList n (getNote s.noteOnList n).dropLast := by
  unfold noteOff
  by_cases hchk : checkNoteOn s n
  · rw [if_pos hchk]
    cases hlast : (getNote s.noteOnList n).getLast? with
    | none => exact Or.inl rfl
    | some v =>
        right
        rw [release_noteOnList]
  · rw [if_neg hchk]
    exact Or.inl rfl

theorem goodState_noteOff (n : Nat) (now gval rval : ℚ) {s : SynthState}
    (h : goodState s) : goodState (noteOff n now gval rval s) := by
  obtain ⟨hnd, hbd, hpw⟩ := h
  refine ⟨?_, ?_, ?_⟩
  · rw [idBag_noteOff]
    exact hnd
  · intro i hi
    rw [idBag_noteOff] at hi
    rw [noteOff_nextId]
    exact hbd i hi
  · intro m
    rcases noteOff_noteOnList n now gval rval s with hcase | hcase
    · rw [hcase]
      exact hpw m
    · rw [hcase]
      by_cases hm : m = n
      · subst hm
        rw [getNote_setNote_self]
        exact List.Pairwise.sublist
          (List.Sublist.map SOsc.id (List.dropLast_sublist _)) (hpw m)
      · rw [getNote_setNote_ne _ hm]
        exact hpw m

theorem goodState_fireTimer (tid : Nat) {s : SynthState}
    (h : goodState s) : goodState (fireTimer tid s) := by
  obtain ⟨hnd, hbd, hpw⟩ := h
  refine ⟨?_, ?_, ?_⟩
  · exact Multiset.nodup_of_le (idBag_fireTimer_le tid s) hnd
  · intro i hi
    rw [fireTimer_nextId]
    exact hbd i (Multiset.mem_of_le (idBag_fireTimer_le tid s) hi)
  · intro m
    rw [fireTimer_noteOnList]
    exact hpw m

theorem goodState_setGeR (value now : ℚ) (val : Nat → ParamKind → ℚ)
    {s : SynthState} (h : goodState s) : goodState (setGeR value now val s) := by
  obtain ⟨hnd, hbd, hpw⟩ := h
  refine ⟨?_, ?_, ?_⟩
  · rw [idBag_setGeR]
    exact hnd
  · intro i hi
    rw [idBag_setGeR] at hi
    rw [setGeR_nextId]
    exact hbd i hi
  · intro m
    rw [setGeR_noteOnList]
    exact hpw m

theorem goodState_mapSetter {f : SOsc → SOsc} (hf : ∀ v, (f v).id = v.id)
    {s : SynthState} {s' : SynthState}
    (hlist : s'.noteOnList = s.noteOnList.map (List.map f))
    (hoff : s'.noteOffList = s.noteOffList)
    (hnext : s'.nextId = s.nextId)
    (h : goodState s) : goodState s' := by
  obtain ⟨hnd, hbd, hpw⟩ := h
  have hbag : idBag s' = idBag s := by
    simp only [idBag, hlist, hoff]
    rw [ids_map_of_id f hf]
  have hslot : ∀ m, (getNote s'.noteOnList m).map SOsc.id
      = (getNote s.noteOnList m).map SOsc.id := by
    intro m
    rw [hlist, getNote_map, List.map_map]
    exact List.map_congr_left (fun v _ => hf v)
  refine ⟨?_, ?_, ?_⟩
  · rw [hbag]
    exact hnd
  · intro i hi
    rw [hbag] at hi
    rw [hnext]
    exact hbd i hi
  · intro m
    rw [hslot m]
    exact hpw m

theorem goodState_apply (e : Event) {s : SynthState} (h : goodState s) :
    goodState (applyEvent e s) := by
  cases e with
  | noteOn n now => exact goodState_noteOn n now h
  | noteOff n now gv rv => exact goodState_noteOff n now gv rv h
  | fire tid => exact goodState_fireTimer tid h
  | setA value now val =>
      exact goodState_mapSetter (retargetAttack_id value s.geD s.geS now val)
        rfl rfl rfl h
  | setD value now val =>
      exact goodState_mapSetter (retargetDecay_id value s.geA s.geS now val)
        rfl rfl rfl h
  | setS value now val =>
      exact goodState_mapSetter (retargetSustain_id s.geA s.geD value now val)
        rfl rfl rfl h
  | setR value now val => exact goodState_setGeR value now val h
  | panicEv =>
      refine ⟨?_, ?_, ?_⟩
      · rw [show idBag (applyEvent Event.panicEv s) = 0 from rfl]
        exact Multiset.nodup_zero
      · intro i hi
        rw [show idBag (applyEvent Event.panicEv s) = 0 from rfl] at hi
        exact absurd hi (Multiset.not_mem_zero i)
      · intro m
        rw [show getNote (applyEvent Event.panicEv s).noteOnList m = []
          from getNote_nil m]
        exact List.Pairwise.nil

theorem goodState_run (evs : List Event) : goodState (run evs) := by
  have haux : ∀ (l : List Event) (s : SynthState), goodState s →
      goodState (l.foldl (fun st e => applyEvent e st) s) := by
    intro l
    induction l with
    | nil => intro s hs; exact hs
    | cons e t ih =>
        intro s hs
        rw [List.foldl_cons]
        exact ih _ (goodState_apply e hs)
  exact haux evs initState goodState_initState

/-! ### Timer bookkeeping -/

theorem timerSync_initState : timerSync initState := by
  constructor
  · rfl
  · intro t ht
    exact absurd ht (List.not_mem_nil t)

theorem timerSync_release (note : Nat) (rt now : ℚ) (val : Nat → ParamKind → ℚ)
    {s : SynthState} (h : timerSync s) : timerSync (release note rt now val s) := by
  obtain ⟨hlist, hbd⟩ := h
  unfold release
  cases hl : (getNote s.noteOffList note).getLast? with
  | none => exact ⟨hlist, hbd⟩
  | some v =>
      constructor
      · simp only [List.map_append, List.map_cons, List.map_nil]
        rw [hlist]
      · intro t ht
        rcases List.mem_append.mp ht with h1 | h1
        · exact lt_trans (hbd t h1) (Nat.lt_succ_self _)
        · rw [List.mem_singleton.mp h1]
          exact Nat.lt_succ_self _

theorem timerSync_noteOn (n : Nat) (now : ℚ) {s : SynthState}
    (h : timerSync s) : timerSync (noteOn n now s) := h

theorem timerSync_noteOff (n : Nat) (now gval rval : ℚ) {s : SynthState}
    (h : timerSync s) : timerSync (noteOff n now gval rval s) := by
  unfold noteOff
  by_cases hchk : checkNoteOn s n
  · rw [if_pos hchk]
    cases hl : (getNote s.noteOnList n).getLast? with
    | none => exact h
    | some v => exact timerSync_release _ _ _ _ h
  · rw [if_neg hchk]
    exact h

theorem timerSync_runNotes (evs : List Event)
    (hn : evs.all Event.isNote = true) : timerSync (run evs) := by
  have haux : ∀ (l : List Event), l.all Event.isNote = true →
      ∀ (s : SynthState), timerSync s →
        timerSync (l.foldl (fun st e => applyEvent e st) s) := by
    intro l
    induction l with
    | nil => intro _ s hs; exact hs
    | cons e t ih =>
        intro hall s hs
        rw [List.all_cons, Bool.and_eq_true] at hall
        rw [List.foldl_cons]
        refine ih hall.2 _ ?_
        cases e with
        | noteOn n now => exact timerSync_noteOn n now hs
        | noteOff n now gv rv => exact timerSync_noteOff n now gv rv hs
        | fire tid => exact absurd hall.1 (by simp [Event.isNote])
        | setA value now val => exact absurd hall.1 (by simp [Event.isNote])
        | setD value now val => exact absurd hall.1 (by simp [Event.isNote])
        | setS value now val => exact absurd hall.1 (by simp [Event.isNote])
        | setR value now val => exact absurd hall.1 (by simp [Event.isNote])
        | panicEv => exact absurd hall.1 (by simp [Event.isNote])
  exact haux evs hn initState timerSync_initState

/-- `panic` clears the host's pending set whenever the bookkeeping list
covers it (`clearTimeout` is called on exactly the ids in `timeOutList`). -/
theorem panic_pending {s : SynthState} (h : timerSync s) :
    (panic s).pending = [] := by
  simp only [panic]
  rw [List.filter_eq_nil_iff]
  intro t ht
  have : t.id ∈ s.timeOutList := by
    rw [h.1]
    exact List.mem_map_of_mem Timer.id ht
  simp [this]

theorem fireTimer_of_pending_nil {s : SynthState} (h : s.pending = [])
    (tid : Nat) : fireTimer tid s = s := by
  unfold fireTimer
  rw [h]
  rfl

/-! ### Which timers survive a `geR` retarget -/

theorem release_pending_mem (note : Nat) (rt now : ℚ)
    (val : Nat → ParamKind → ℚ) (s : SynthState) {t : Timer}
    (ht : t ∈ (release note rt now val s).pending) :
    t ∈ s.pending ∨ s.nextTimerId ≤ t.id := by
  unfold release at ht
  cases hl : (getNote s.noteOffList note).getLast? with
  | none =>
      rw [hl] at ht
      exact Or.inl ht
  | some v =>
      rw [hl] at ht
      rcases List.mem_append.mp ht with h1 | h1
      · exact Or.inl h1
      · right
        rw [List.mem_singleton.mp h1]

theorem release_nextTimerId_le (note : Nat) (rt now : ℚ)
    (val : Nat → ParamKind → ℚ) (s : SynthState) :
    s.nextTimerId ≤ (release note rt now val s).nextTimerId := by
  unfold release
  cases hl : (getNote s.noteOffList note).getLast? with
  | none => exact le_refl _
  | some v => exact Nat.le_succ _

theorem foldl_nextTimerId_le {β : Type} (f : SynthState → β → SynthState)
    (hm : ∀ s b, s.nextTimerId ≤ (f s b).nextTimerId) :
    ∀ (l : List β) (s : SynthState), s.nextTimerId ≤ (l.foldl f s).nextTimerId := by
  intro l
  induction l with
  | nil => intro s; exact le_refl _
  | cons b t ih =>
      intro s
      rw [List.foldl_cons]
      exact le_trans (hm s b) (ih (f s b))

theorem foldl_pending_mem {β : Type} (f : SynthState → β → SynthState)
    (hf : ∀ s b (t : Timer), t ∈ (f s b).pending → t ∈ s.pending ∨ s.nextTimerId ≤ t.id)
    (hm : ∀ s b, s.nextTimerId ≤ (f s b).nextTimerId) :
    ∀ (l : List β) (s : SynthState) (t : Timer),
      t ∈ (l.foldl f s).pending → t ∈ s.pending ∨ s.nextTimerId ≤ t.id := by
  intro l
  induction l with
  | nil => intro s t ht; exact Or.inl ht
  | cons b tl ih =>
      intro s t ht
      rw [List.foldl_cons] at ht
      rcases ih (f s b) t ht with h1 | h1
      · exact hf s b t h1
      · exact Or.inr (le_trans (hm s b) h1)

theorem setGeR_pending_mem (value now : ℚ) (val : Nat → ParamKind → ℚ)
    (s : SynthState) {t : Timer} (ht : t ∈ (setGeR value now val s).pending) :
    (t ∈ s.pending ∧ t.id ∉ s.timeOutList) ∨ s.nextTimerId ≤ t.id := by
  unfold setGeR at ht
  have hinner : ∀ (st : SynthState) (note : Nat) (u : Timer),
      u ∈ ((getNote { s with
          geR := value
          pending := s.pending.filter (fun t => !(s.timeOutList.contains t.id))
          timeOutList := [] }.noteOffList note).foldl
        (fun acc2 v => release note (value * val v.id ParamKind.releaseP) now val acc2) st).pending
        → u ∈ st.pending ∨ st.nextTimerId ≤ u.id := by
    intro st note u hu
    exact foldl_pending_mem _
      (fun s2 v u2 h2 => release_pending_mem _ _ _ _ _ h2)
      (fun s2 v => release_nextTimerId_le _ _ _ _ _) _ _ _ hu
  have houter := foldl_pending_mem _
    (fun s2 note u h2 => hinner s2 note u h2)
    (fun s2 note => foldl_nextTimerId_le _
      (fun s3 v => release_nextTimerId_le _ _ _ _ _) _ _) _ _ _ ht
  rcases houter with h1 | h1
  · left
    have hmem := List.mem_filter.mp h1
    refine ⟨hmem.1, ?_⟩
    intro hcon
    have := hmem.2
    simp [hcon] at this
  · exact Or.inr h1

theorem release_noteOffList_ne (note : Nat) {m : Nat} (h : m ≠ note)
    (rt now : ℚ) (val : Nat → ParamKind → ℚ) (s : SynthState) :
    getNote (release note rt now val s).noteOffList m = getNote s.noteOffList m := by
  unfold release
  cases hl : (getNote s.noteOffList note).getLast? with
  | none => rfl
  | some v => exact getNote_setNote_ne _ h _

/-! ### Claim theorems -/

/-- C2: after any finite sequence of `noteOn`/`noteOff` calls, `panic()`
empties both note lists and the timeout list, cancels every pending release
timer (so no armed cleanup callback can fire afterwards), stops every
oscillator of every voice registered in either stack, and leaves the
registry/timer state equal to that of a freshly constructed `Synthesizer`. -/
theorem panic_total (evs : List Event) (hn : evs.all Event.isNote = true) :
    (panic (run evs)).noteOnList = initState.noteOnList
  ∧ (panic (run evs)).noteOffList = initState.noteOffList
  ∧ (panic (run evs)).timeOutList = initState.timeOutList
  ∧ (panic (run evs)).pending = []
  ∧ (∀ tid : Nat, fireTimer tid (panic (run evs)) = panic (run evs))
  ∧ (∀ v : SOsc,
      v ∈ (run evs).noteOnList.flatten ++ (run evs).noteOffList.flatten →
      v.id ∈ (panic (run evs)).stopped) := by
  have hp : (panic (run evs)).pending = [] :=
    panic_pending (timerSync_runNotes evs hn)
  refine ⟨rfl, rfl, rfl, hp, fun tid => fireTimer_of_pending_nil hp tid, ?_⟩
  intro v hv
  simp only [panic]
  rcases List.mem_append.mp hv with h1 | h1
  · exact List.mem_append.mpr
      (Or.inl (List.mem_append.mpr (Or.inr (List.mem_map_of_mem SOsc.id h1))))
  · exact List.mem_append.mpr (Or.inr (List.mem_map_of_mem SOsc.id h1))

/-- C5: after any sequence of engine operations (noteOn, noteOff, release
timers firing, the four envelope-parameter setters, panic), no voice object
is registered twice: the identities found across the held and releasing
stacks of all notes are pairwise distinct, so each voice lives in at most
one stack (and in it at most once), or in none once cleaned up. -/
theorem voice_in_exactly_one_stack (evs : List Event) :
    ((run evs).noteOnList.flatten.map SOsc.id
      ++ (run evs).noteOffList.flatten.map SOsc.id).Nodup := by
  have h := (goodState_run evs).1
  have hco : idBag (run evs)
      = (((run evs).noteOnList.flatten.map SOsc.id
          ++ (run evs).noteOffList.flatten.map SOsc.id : List Nat) : Multiset Nat) := by
    simp only [idBag, ids]
    rw [Multiset.coe_add]
  rw [hco] at h
  exact Multiset.coe_nodup.mp h

/-- C8 (amended): the part_002 `geR` setter calls `clearTimeout` on exactly
the handles recorded in `timeOutList` before re-arming; whenever
`timeOutList` still lists every pending timer (as it does while timers fire
in arming order), every previously armed release timer is cancelled before
any new timer is armed, so no such timer remains pending after the retarget. -/
theorem setGeR_cancels_synced_timers (value now : ℚ)
    (val : Nat → ParamKind → ℚ) {s : SynthState} (hsync : timerSync s) :
    ∀ tid ∈ s.pending.map Timer.id,
      tid ∉ (setGeR value now val s).pending.map Timer.id := by
  intro tid htid hmem
  obtain ⟨t, ht, hid⟩ := List.mem_map.mp htid
  obtain ⟨t', ht', hid'⟩ := List.mem_map.mp hmem
  rcases setGeR_pending_mem value now val s ht' with ⟨_, hnot⟩ | hge
  · apply hnot
    rw [hsync.1, hid']
    rw [← hid]
    exact List.mem_map_of_mem Timer.id ht
  · have h1 : t'.id < s.nextTimerId := by
      rw [hid', ← hid]
      exact hsync.2 t ht
    omega

/-- C4: `noteOff` on a note whose held stack is empty (or was never
assigned) is a complete no-op: the resulting state — registries, timers,
automation schedules — is the input state, and no error is signalled. -/
theorem noteOff_noop (s : SynthState) (n : Nat) (now gval rval : ℚ)
    (h : getNote s.noteOnList n = []) : noteOff n now gval rval s = s := by
  unfold noteOff
  rw [if_neg]
  simp [checkNoteOn, h]

/-- C10: `noteOn n` and `noteOff n` leave the held and releasing stacks of
every other note `m ≠ n` unchanged (same voices, same order). -/
theorem noteOn_noteOff_frame (s : SynthState) {n m : Nat} (now gval rval : ℚ)
    (h : m ≠ n) :
    getNote (noteOn n now s).noteOnList m = getNote s.noteOnList m
  ∧ getNote (noteOn n now s).noteOffList m = getNote s.noteOffList m
  ∧ getNote (noteOff n now gval rval s).noteOnList m = getNote s.noteOnList m
  ∧ getNote (noteOff n now gval rval s).noteOffList m = getNote s.noteOffList m := by
  refine ⟨?_, rfl, ?_, ?_⟩
  · simp only [noteOn]
    exact getNote_setNote_ne _ h _
  · rcases noteOff_noteOnList n now gval rval s with hcase | hcase
    · rw [hcase]
    · rw [hcase]
      exact getNote_setNote_ne _ h _
  · unfold noteOff
    by_cases hchk : checkNoteOn s n
    · rw [if_pos hchk]
      cases hl : (getNote s.noteOnList n).getLast? with
      | none => rfl
      | some v =>
          rw [release_noteOffList_ne n h]
          exact getNote_setNote_ne _ h _
    · rw [if_neg hchk]

theorem release_noteOffList_slot (note : Nat) (rt now : ℚ)
    (val : Nat → ParamKind → ℚ) (s : SynthState) {g : List SOsc} {v : SOsc}
    (hslot : getNote s.noteOffList note = g ++ [v]) :
    (getNote (release note rt now val s).noteOffList note).map SOsc.id
      = g.map SOsc.id ++ [v.id] := by
  have hlast : (getNote s.noteOffList note).getLast? = some v := by
    rw [hslot]
    exact List.getLast?_concat g
  unfold release
  cases hl : (getNote s.noteOffList note).getLast? with
  | none =>
      rw [hl] at hlast
      exact absurd hlast (by simp)
  | some v2 =>
      have hv2 : v2 = v := by
        rw [hl] at hlast
        exact (Option.some.injEq _ _).mp hlast
      subst hv2
      rw [getNote_setNote_self, hslot, List.dropLast_concat, List.map_append]
      simp

/-- C3: voice stacks are LIFO per note.  For any state with a held voice on
note `n`, `noteOff n` removes exactly the top (last-pushed) held voice and
appends that voice to `n`'s releasing stack; in run-reachable states the
removed voice's identity is strictly larger than — i.e. it was created after
— every voice left on the held stack; and in the concrete scenario
`noteOn 60; noteOn 60; noteOff 60` the held stack keeps exactly voice 0
while the releasing stack holds exactly voice 1, the most recently created
of the two. -/
theorem noteOff_lifo :
    (∀ (s : SynthState) (n : Nat) (now gval rval : ℚ)
        (h : getNote s.noteOnList n ≠ []),
        getNote (noteOff n now gval rval s).noteOnList n
            = (getNote s.noteOnList n).dropLast
          ∧ (getNote (noteOff n now gval rval s).noteOffList n).map SOsc.id
            = (getNote s.noteOffList n).map SOsc.id
                ++ [((getNote s.noteOnList n).getLast h).id])
  ∧ (∀ (evs : List Event) (n : Nat) (h : getNote (run evs).noteOnList n ≠ [])
        (w : SOsc), w ∈ (getNote (run evs).noteOnList n).dropLast →
        w.id < ((getNote (run evs).noteOnList n).getLast h).id)
  ∧ (getNote (run [Event.noteOn 60 0, Event.noteOn 60 1,
        Event.noteOff 60 2 (1/2) 1]).noteOnList 60).map SOsc.id = [0]
  ∧ (getNote (run [Event.noteOn 60 0, Event.noteOn 60 1,
        Event.noteOff 60 2 (1/2) 1]).noteOffList 60).map SOsc.id = [1] := by
  refine ⟨?_, ?_, by decide, by decide⟩
  · intro s n now gval rval h
    have hchk : checkNoteOn s n := by
      simp [checkNoteOn, h]
    have hlast : (getNote s.noteOnList n).getLast?
        = some ((getNote s.noteOnList n).getLast h) :=
      List.getLast?_eq_getLast_of_ne_nil h
    unfold noteOff
    rw [if_pos hchk]
    cases hl : (getNote s.noteOnList n).getLast? with
    | none =>
        rw [hl] at hlast
        exact absurd hlast (by simp)
    | some v =>
        have hv : v = (getNote s.noteOnList n).getLast h := by
          rw [hlast] at hl
          exact ((Option.some.injEq _ _).mp hl).symm
        constructor
        · rw [release_noteOnList]
          exact getNote_setNote_self _ _ _
        · rw [release_noteOffList_slot n _ _ _ _ (getNote_setNote_self _ _ _), hv]
  · intro evs n h w hw
    have hpw := (goodState_run evs).2.2 n
    have hdec : (getNote (run evs).noteOnList n).dropLast
        ++ [(getNote (run evs).noteOnList n).getLast h]
        = getNote (run evs).noteOnList n := List.dropLast_append_getLast h
    rw [← hdec, List.map_append, List.pairwise_append] at hpw
    exact hpw.2.2 w.id (List.mem_map_of_mem _ hw) _ (by simp)

/-- C6: `noteOn` computes every member oscillator's frequency from the MIDI
note as `440 * 2 ^ ((note - 69) / 12)`: the voice pushed by `noteOn n`
carries exactly that frequency; note 69 maps to exactly 440 Hz and note 81
maps to 880 Hz, well within the 1e-6 tolerance. -/
theorem noteOn_frequency :
    (∀ (s : SynthState) (n : Nat) (now : ℚ),
        (getNote (noteOn n now s).noteOnList n).getLast?.map SOsc.frequency
          = some (440 * (2 : ℝ) ^ (((n : ℝ) - 69) / 12)))
  ∧ noteFreq 69 = 440 ∧ |noteFreq 81 - 880| ≤ 1 / 1000000 := by
  have h69 : noteFreq 69 = 440 := by
    have hz : (((69 : Nat) : ℝ) - 69) / 12 = 0 := by
      norm_num
    rw [noteFreq, hz, Real.rpow_zero, mul_one]
  have h81 : noteFreq 81 = 880 := by
    have ho : (((81 : Nat) : ℝ) - 69) / 12 = 1 := by
      norm_num
    rw [noteFreq, ho, Real.rpow_one]
    norm_num
  refine ⟨?_, h69, ?_⟩
  · intro s n now
    obtain ⟨v, _, hnote, hslot⟩ := noteOn_held n now s
    rw [hslot, List.getLast?_concat]
    rw [show Option.map SOsc.frequency (some v) = some v.frequency from rfl]
    rw [show v.frequency = noteFreq n by rw [SOsc.frequency, hnote]]
    rfl
  · rw [h81]
    norm_num

theorem setTypeLoop_eq (d : ℚ) :
    ∀ (remaining i e : Nat), (0 < i → e = (i + 1) / 2) → (i = 0 → e = 1) →
      setTypeLoop d remaining i e = (List.range' i remaining).map (oscDetuneVal d) := by
  intro remaining
  induction remaining with
  | zero => intro i e _ _; rfl
  | succ r ih =>
      intro i e he he0
      rw [List.range'_succ, List.map_cons]
      show (if i = 0 then (0 : ℚ)
          else if i % 2 = 1 then d * e else d * (-(e : ℚ)))
          :: setTypeLoop d r (i + 1) (if 0 < i ∧ i % 2 ≠ 1 then e + 1 else e)
        = oscDetuneVal d i :: (List.range' (i + 1) r).map (oscDetuneVal d)
      congr 1
      · by_cases h0 : i = 0
        · subst h0
          simp [oscDetuneVal]
        · have hi : 0 < i := Nat.pos_of_ne_zero h0
          rw [he hi]
          by_cases hodd : i % 2 = 1
          · simp [oscDetuneVal, h0, hodd]
          · simp only [oscDetuneVal, if_neg h0, if_neg hodd]
            have h2 : (i + 1) / 2 = i / 2 := by omega
            rw [h2, mul_neg]
      · refine ih (i + 1) _ ?_ ?_
        · intro _
          by_cases h0 : i = 0
          · subst h0
            rw [if_neg (by simp)]
            rw [he0 rfl]
          · have hi : 0 < i := Nat.pos_of_ne_zero h0
            have heq := he hi
            by_cases hodd : i % 2 = 1
            · rw [if_neg (by simp [hodd]), heq]
              omega
            · rw [if_pos ⟨hi, hodd⟩, heq]
              omega
        · intro hcon
          exact absurd hcon (Nat.succ_ne_zero i)

theorem setTypeDetunes_eq (voices : Nat) (d : ℚ) :
    setTypeDetunes voices d = (List.range' 0 voices).map (oscDetuneVal d) := by
  rw [setTypeDetunes]
  exact setTypeLoop_eq d voices 0 1 (fun h => absurd h (lt_irrefl 0)) (fun _ => rfl)

theorem setTypeDetunes_getD {voices : Nat} (d : ℚ) {j : Nat} (hj : j < voices) :
    (setTypeDetunes voices d).getD j 0 = oscDetuneVal d j := by
  rw [setTypeDetunes_eq, List.getD_eq_getElem?_getD, List.getElem?_map,
    List.getElem?_range' 0 1 hj]
  simp

/-- C7: for any voice count `v ≥ 1` and detune `d`, the SoundOscillator
built by `createSOsc` contains exactly `v` member oscillators whose detunes
follow the alternating symmetric pattern: oscillator 0 is undetuned, and
for `k ≥ 1` oscillator `2k-1` carries `+k·d` while oscillator `2k` carries
`−k·d`. -/
theorem createSOsc_detune_pattern (voices : Nat) (d : ℚ) (id note : Nat)
    (hv : 1 ≤ voices) :
    (createSOsc voices d id note).oscDetunes.length = voices
  ∧ (createSOsc voices d id note).oscDetunes.getD 0 0 = 0
  ∧ ∀ k : Nat, 1 ≤ k →
      (2 * k - 1 < voices →
        (createSOsc voices d id note).oscDetunes.getD (2 * k - 1) 0 = d * k)
    ∧ (2 * k < voices →
        (createSOsc voices d id note).oscDetunes.getD (2 * k) 0 = -(d * k)) := by
  have hlist : (createSOsc voices d id note).oscDetunes = setTypeDetunes voices d := rfl
  refine ⟨?_, ?_, ?_⟩
  · rw [hlist, setTypeDetunes_eq, List.length_map, List.length_range']
  · rw [hlist, setTypeDetunes_getD d hv]
    rfl
  · intro k hk
    constructor
    · intro hlt
      rw [hlist, setTypeDetunes_getD d hlt, oscDetuneVal,
        if_neg (by omega), if_pos (by omega)]
      congr 1
      congr 1
      omega
    · intro hlt
      rw [hlist, setTypeDetunes_getD d hlt, oscDetuneVal,
        if_neg (by omega), if_neg (by omega)]
      congr 2
      congr 1
      omega

/-- The `geA` setter rewrites every held voice through `retargetAttack`. -/
theorem setGeA_held_slot (value now : ℚ) (val : Nat → ParamKind → ℚ)
    (s : SynthState) (n : Nat) :
    getNote (setGeA value now val s).noteOnList n
      = (getNote s.noteOnList n).map (retargetAttack value s.geD s.geS now val) := by
  simp only [setGeA]
  exact getNote_map _ _ _

/-- For a voice mid-attack (its attack-progress oracle read `p` makes
`value * p > 0`), the `geA` retarget body schedules an attack-progress ramp
and an attack gain ramp both ending `value * p` milliseconds after the
call — the proportional rescaling of the remaining attack (part_002 lines
302-308). -/
theorem retargetAttack_proportional (value geD geS now : ℚ)
    (val : Nat → ParamKind → ℚ) (v : SOsc)
    (hp : 0 < value * val v.id ParamKind.attackP) :
    (retargetAttack value geD geS now val v).attackEvents.getLast?
      = some (AutoEvent.linearRampToValueAtTime 0
          (now + value * val v.id ParamKind.attackP / 1000))
  ∧ AutoEvent.exponentialRampToValueAtTime (993 / 1000)
      (now + value * val v.id ParamKind.attackP / 1000)
      ∈ (retargetAttack value geD geS now val v).gainEvents := by
  constructor
  · exact List.getLast?_concat _
  · simp only [retargetAttack, if_pos hp, attack, decay, cancelAndHold]
    simp

/-- C1 fails on the code (`set geR`): with the older voice (id 0) at release
progress 1/2 and the newer (id 1) at 9/10, setting `geR = 2000` at time 5
leaves the older voice's gain and release-progress schedules exactly as they
were — no ramp of duration 2000·(1/2) = 1000 ms is ever scheduled for it —
while the top voice (id 1) ends up with a final gain ramp of duration
2000·(9/10) ms (ending at 5 + 2000·(9/10)/1000), because `release` always
acts on the top of the releasing stack; the two cleanup timers are armed
with each voice's proportional delay (2000·(1/2) and 2000·(9/10)) but both
target the head of the stack. -/
theorem setGeR_skips_lower_voice :
    ((getNote (setGeR 2000 5 oracleC1 stateC1).noteOffList 60).head?.map
        (fun v => (v.gainEvents, v.releaseEvents))
      = (getNote stateC1.noteOffList 60).head?.map
        (fun v => (v.gainEvents, v.releaseEvents)))
  ∧ ((getNote (setGeR 2000 5 oracleC1 stateC1).noteOffList 60).head?.map SOsc.id
      = some 0)
  ∧ ((getNote (setGeR 2000 5 oracleC1 stateC1).noteOffList 60).getLast?.map SOsc.id
      = some 1)
  ∧ (((getNote (setGeR 2000 5 oracleC1 stateC1).noteOffList 60).getLast?.elim
        [] SOsc.gainEvents).getLast?
      = some (AutoEvent.exponentialRampToValueAtTime (1 / 10000)
          (5 + 2000 * (9 / 10) / 1000)))
  ∧ (setGeR 2000 5 oracleC1 stateC1).pending
      = [⟨2, 2000 * (1 / 2), 60⟩, ⟨3, 2000 * (9 / 10), 60⟩] := by
  exact ⟨rfl, rfl, rfl, rfl, rfl⟩

/-- C8 as stated fails on the code: timer 2 (armed by the first retarget
with delay 1800 ms) is still pending when a second `geR` retarget runs at
time 3, survives that retarget — its handle was dropped from `timeOutList`
by the out-of-order firing of timer 3, so `clearTimeout` never reaches it —
and when it later fires it stops the oscillators of voice 1. -/
theorem setGeR_stale_timer_fires :
    (2 : Nat) ∈ stateC8.pending.map Timer.id
  ∧ (2 : Nat) ∈ (setGeR 500 3 (fun _ _ => 1 / 2) stateC8).pending.map Timer.id
  ∧ (1 : Nat) ∉ (setGeR 500 3 (fun _ _ => 1 / 2) stateC8).stopped
  ∧ (1 : Nat) ∈ (fireTimer 2
      (setGeR 500 3 (fun _ _ => 1 / 2) stateC8)).stopped := by
  decide

/-- C9 fails on the code: with two voices held on note 60,
`getNoteStatInfo(60)` reports `voicesOn = 1` — the number of *notes* with
held voices — rather than 2, the number of voices held on note 60, and it
reports the same pair for note 72, which holds no voice at all: the `note`
argument is ignored.  The older variant's `getNoteInfo` (part_001) returns
the per-note counts the claim describes. -/
theorem getNoteStatInfo_counts_notes :
    getNoteStatInfo 60 stateC9 = (1, 0)
  ∧ (getNote stateC9.noteOnList 60).length = 2
  ∧ getNoteStatInfo 72 stateC9 = (1, 0)
  ∧ (getNote stateC9.noteOnList 72).length = 0
  ∧ getNoteInfoV1 60 stateC9 = (2, 0) := by
  decide

/-! ### Witnesses -/

theorem panic_total_witness :
    ([Event.noteOn 60 0, Event.noteOff 60 0 (1 / 2) 1,
      Event.noteOn 64 1].all Event.isNote = true)
  ∧ (panic (run [Event.noteOn 60 0, Event.noteOff 60 0 (1 / 2) 1,
      Event.noteOn 64 1])).pending = [] :=
  ⟨by decide,
   (panic_total [Event.noteOn 60 0, Event.noteOff 60 0 (1 / 2) 1,
      Event.noteOn 64 1] (by decide)).2.2.2.1⟩

theorem noteOff_lifo_witness :
    (getNote (run [Event.noteOn 60 0, Event.noteOn 60 1]).noteOnList 60 ≠ [])
  ∧ getNote (noteOff 60 2 (1 / 2) 1
        (run [Event.noteOn 60 0, Event.noteOn 60 1])).noteOnList 60
      = (getNote (run [Event.noteOn 60 0, Event.noteOn 60 1]).noteOnList 60).dropLast :=
  ⟨by decide,
   (noteOff_lifo.1 (run [Event.noteOn 60 0, Event.noteOn 60 1]) 60 2 (1 / 2) 1
      (by decide)).1⟩

theorem noteOff_noop_witness :
    getNote (run [Event.noteOn 64 0]).noteOnList 60 = []
  ∧ noteOff 60 1 (1 / 2) 1 (run [Event.noteOn 64 0]) = run [Event.noteOn 64 0] :=
  ⟨by decide, noteOff_noop (run [Event.noteOn 64 0]) 60 1 (1 / 2) 1 (by decide)⟩

theorem createSOsc_detune_pattern_witness :
    ((1 : Nat) ≤ 5)
  ∧ (createSOsc 5 7 0 60).oscDetunes.length = 5
  ∧ (createSOsc 5 7 0 60).oscDetunes.getD (2 * 2 - 1) 0 = 7 * ((2 : Nat) : ℚ)
  ∧ (createSOsc 5 7 0 60).oscDetunes.getD (2 * 2) 0 = -(7 * ((2 : Nat) : ℚ)) :=
  ⟨by decide, (createSOsc_detune_pattern 5 7 0 60 (by decide)).1,
   ((createSOsc_detune_pattern 5 7 0 60 (by decide)).2.2 2 (by decide)).1 (by decide),
   ((createSOsc_detune_pattern 5 7 0 60 (by decide)).2.2 2 (by decide)).2 (by decide)⟩

theorem setGeR_cancels_synced_timers_witness :
    ((run [Event.noteOn 60 0, Event.noteOff 60 0 (1 / 2) 1]).timeOutList
      = (run [Event.noteOn 60 0, Event.noteOff 60 0 (1 / 2) 1]).pending.map Timer.id)
  ∧ (0 : Nat)
      ∈ (run [Event.noteOn 60 0, Event.noteOff 60 0 (1 / 2) 1]).pending.map Timer.id
  ∧ (0 : Nat)
      ∉ (setGeR 2000 2 (fun _ _ => 1 / 2)
          (run [Event.noteOn 60 0, Event.noteOff 60 0 (1 / 2) 1])).pending.map Timer.id :=
  ⟨by decide, by decide,
   setGeR_cancels_synced_timers 2000 2 (fun _ _ => 1 / 2)
     ⟨by decide, by decide⟩ 0 (by decide)⟩

theorem noteOn_noteOff_frame_witness :
    ((61 : Nat) ≠ 60)
  ∧ getNote (noteOn 60 5 (run [Event.noteOn 61 0])).noteOnList 61
      = getNote (run [Event.noteOn 61 0]).noteOnList 61 :=
  ⟨by decide,
   (noteOn_noteOff_frame (run [Event.noteOn 61 0]) 5 (1 / 2) 1 (by decide)).1⟩

end PolySynth
